import Mathlib

/-!
Verification development for the TushareData synchronization engine.

The repository keeps a local archive of market bars fetched incrementally
from a remote provider.  The definitions below are a shallow embedding of
the engine's core routines:

* `download_minutes_batch` (src/data_downloader.py, lines 148-273): month
  partitioning, listing-date clamp, per-batch fetch with failures skipped,
  dedup and sort of the concatenation;
* `save_data_to_file` (src/data_downloader.py, lines 465-558): the
  append-merge / overwrite / merge-failure-fallback persistence discipline;
* `calculate_download_range` incremental branch (src/data_downloader.py,
  lines 437-463);
* `download_single_stock` / `download_single_fund` one-frequency iteration
  (src/stock_downloader.py lines 190-240, src/fund_downloader.py lines
  210-261): skip-when-up-to-date, fetch, persist, watermark update.

Embedding conventions:

* Dates handled by pandas (`pd.to_datetime`, `timedelta`, `.replace`) are
  embedded as `Date` records (year/month/day) with the numeric key
  `y*10000 + m*100 + d`; chronological order of valid dates coincides with
  the order of keys, which also coincides with Python's lexicographic
  comparison of the uniformly formatted "YYYYMMDD" strings the code uses.
* Python string comparison is code-point lexicographic; `charsLtb` /
  `strLtb` below implement exactly that, so the embedded comparisons and
  sorts are kernel-computable.
* DataFrames are lists of typed rows; `.empty` is `List.isEmpty`,
  `pd.concat` is `++`, `drop_duplicates(keep='last')` is
  `dropDuplicatesKeepLast`, and `sort_values([...], ascending=[True,
  False])` is a stable merge sort with the corresponding comparator.
* A fallible remote call is a function returning `Except String rows`;
  the `try/except` blocks of the source become pattern matches on it.
* Row payloads (OHLCV floats) are irrelevant to every claim; each row
  carries a single opaque `Int` payload standing for the remaining
  columns.
-/

namespace TushareData

/-- Code-point lexicographic strict comparison of character lists: the
order Python uses when comparing `str` values. -/
def charsLtb : List Char → List Char → Bool
  | _, [] => false
  | [], _ :: _ => true
  | a :: as, b :: bs =>
    if a < b then true
    else if b < a then false
    else charsLtb as bs

/-- Strict `<` on strings, as Python compares the date and time strings
of the source ("20240601" < "20240602", "2019-01-15 09:31:00" < ...). -/
def strLtb (s t : String) : Bool := charsLtb s.data t.data

/-- Non-strict `≤` on strings (Python `<=`). -/
def strLeb (s t : String) : Bool := !(strLtb t s)

/-- Python `>=` on strings, used by the `start_date >= end_date` skip
guard of `download_single_stock` / `download_single_fund`. -/
def strGeb (s t : String) : Bool := !(strLtb s t)

theorem charsLtb_irrefl : ∀ as, charsLtb as as = false := by
  intro as
  induction as with
  | nil => rfl
  | cons a as ih => simp [charsLtb, ih]

theorem charsLtb_asymm : ∀ as bs, charsLtb as bs = true → charsLtb bs as = false := by
  intro as
  induction as with
  | nil =>
    intro bs h
    cases bs with
    | nil => rfl
    | cons b bs => simp [charsLtb]
  | cons a as ih =>
    intro bs h
    cases bs with
    | nil => simp [charsLtb] at h
    | cons b bs =>
      simp only [charsLtb] at h ⊢
      rcases lt_trichotomy a b with hab | hab | hab
      · simp [hab, not_lt_of_lt hab]
      · subst hab
        simp only [lt_irrefl, if_false] at h ⊢
        exact ih bs h
      · simp [hab, not_lt_of_lt hab] at h

theorem charsLtb_antisymm : ∀ as bs, charsLtb as bs = false → charsLtb bs as = false → as = bs := by
  intro as
  induction as with
  | nil =>
    intro bs h1 _h2
    cases bs with
    | nil => rfl
    | cons b bs => simp [charsLtb] at h1
  | cons a as ih =>
    intro bs h1 h2
    cases bs with
    | nil => simp [charsLtb] at h2
    | cons b bs =>
      simp only [charsLtb] at h1 h2
      rcases lt_trichotomy a b with hab | hab | hab
      · simp [hab] at h1
      · subst hab
        simp only [lt_irrefl, if_false] at h1 h2
        rw [ih bs h1 h2]
      · simp [hab] at h2

theorem charsLtb_trans : ∀ as bs cs, charsLtb as bs = true → charsLtb bs cs = true →
    charsLtb as cs = true := by
  intro as
  induction as with
  | nil =>
    intro bs cs h1 h2
    cases cs with
    | nil => cases bs with
      | nil => exact h2
      | cons b bs => simp [charsLtb] at h2
    | cons c cs => simp [charsLtb]
  | cons a as ih =>
    intro bs cs h1 h2
    cases bs with
    | nil => simp [charsLtb] at h1
    | cons b bs =>
      cases cs with
      | nil => simp [charsLtb] at h2
      | cons c cs =>
        simp only [charsLtb] at h1 h2 ⊢
        rcases lt_trichotomy a b with hab | hab | hab
        · rcases lt_trichotomy b c with hbc | hbc | hbc
          · have hac : a < c := lt_trans hab hbc
            simp [hac]
          · subst hbc
            simp [hab]
          · simp [hbc, not_lt_of_lt hbc] at h2
        · subst hab
          simp only [lt_irrefl, if_false] at h1
          rcases lt_trichotomy a c with hac | hac | hac
          · simp [hac]
          · subst hac
            simp only [lt_irrefl, if_false] at h2 ⊢
            exact ih bs cs h1 h2
          · simp [hac, not_lt_of_lt hac] at h2
        · simp [hab, not_lt_of_lt hab] at h1

theorem strLtb_antisymm (s t : String) (h1 : strLtb s t = false) (h2 : strLtb t s = false) :
    s = t := by
  cases s with
  | mk ds =>
    cases t with
    | mk dt =>
      have h := charsLtb_antisymm ds dt h1 h2
      simp [h]

theorem strLtb_trans (s t u : String) (h1 : strLtb s t = true) (h2 : strLtb t u = true) :
    strLtb s u = true :=
  charsLtb_trans s.data t.data u.data h1 h2

theorem strLtb_asymm (s t : String) (h : strLtb s t = true) : strLtb t s = false :=
  charsLtb_asymm s.data t.data h

theorem strLtb_irrefl (s : String) : strLtb s s = false :=
  charsLtb_irrefl s.data

theorem strLtb_false_trans (a b c : String) (h1 : strLtb b a = false) (h2 : strLtb c b = false) :
    strLtb c a = false := by
  cases hca : strLtb c a
  · rfl
  · cases hbc : strLtb b c
    · have hbc2 : b = c := strLtb_antisymm b c hbc h2
      rw [hbc2] at h1
      rw [hca] at h1
      exact h1
    · have hba : strLtb b a = true := strLtb_trans b c a hbc hca
      rw [hba] at h1
      exact h1

/-! ## Calendar dates

The source parses "YYYYMMDD" strings into pandas timestamps and uses
`replace(month=..., day=1)` and `timedelta(days=1)` arithmetic on them
(`download_minutes_batch`, src/data_downloader.py lines 166-207).  A
timestamp at day granularity is a calendar date. -/

/-- Gregorian leap-year test, as implemented by the pandas calendar. -/
def isLeap (y : Nat) : Bool := (y % 4 == 0 && y % 100 != 0) || y % 400 == 0

/-- Number of days of month `m` of year `y` in the Gregorian calendar. -/
def daysInMonth (y m : Nat) : Nat :=
  if m = 2 then (if isLeap y then 29 else 28)
  else if m = 4 ∨ m = 6 ∨ m = 9 ∨ m = 11 then 30
  else 31

/-- A calendar date (pandas timestamp at day granularity). -/
structure Date where
  y : Nat
  m : Nat
  d : Nat
deriving DecidableEq, Repr

/-- Numeric key YYYYMMDD of a date.  For valid dates, comparing keys is
chronological comparison, which is also how Python compares the
"YYYYMMDD" strings of the source. -/
def Date.key (t : Date) : Nat := t.y * 10000 + t.m * 100 + t.d

/-- The date denotes an actual calendar day. -/
def Date.Valid (t : Date) : Prop :=
  1 ≤ t.m ∧ t.m ≤ 12 ∧ 1 ≤ t.d ∧ t.d ≤ daysInMonth t.y t.m

instance (t : Date) : Decidable t.Valid := by
  unfold Date.Valid
  infer_instance

/-- First day of the month after `t`: the source's
`current_start.replace(year=+1, month=1, day=1)` /
`replace(month=+1, day=1)` (src/data_downloader.py lines 201-204). -/
def nextMonthStart (t : Date) : Date :=
  if t.m = 12 then ⟨t.y + 1, 1, 1⟩ else ⟨t.y, t.m + 1, 1⟩

/-- Last day of the month of `t`: the source computes it as
`next_month_start - timedelta(days=1)` (src/data_downloader.py line 207),
and the day before the first day of the next month is the last day of the
current month. -/
def monthEnd (t : Date) : Date := ⟨t.y, t.m, daysInMonth t.y t.m⟩

/-- Chronologically earlier of two dates (the source's `min` of two
pandas timestamps). -/
def minDate (a b : Date) : Date := if a.key ≤ b.key then a else b

/-- The day after `t` (`timedelta(days=1)` in
`calculate_download_range`). -/
def nextDay (t : Date) : Date :=
  if t.d < daysInMonth t.y t.m then ⟨t.y, t.m, t.d + 1⟩ else nextMonthStart t

/-- One fetch sub-range produced by the batching loop of
`download_minutes_batch`: a clipped calendar-month date range together
with the session time-of-day bounds the source appends to the date
strings ("09:00:00" and "19:00:00", src/data_downloader.py lines
210-211). -/
structure Batch where
  batch_start : Date
  batch_end : Date
  start_bound : String
  end_bound : String
deriving DecidableEq, Repr

/-- Month index used as termination fuel: the batching loop advances
`current_start` to the first day of the next month on every iteration. -/
def monthIdx (t : Date) : Nat := t.y * 12 + t.m

/-- The batching loop of `download_minutes_batch`
(src/data_downloader.py lines 196-240), one iteration per calendar
month: while `current_start ≤ end`, emit the sub-range from
`current_start` to `min(month end, end)` and continue from the first day
of the next month.  `fuel` bounds the number of iterations; the wrapper
`monthBatches` supplies enough fuel for the whole range. -/
def monthBatchesAux : Nat → Date → Date → List Batch
  | 0, _, _ => []
  | fuel + 1, s, e =>
    if s.key ≤ e.key then
      ⟨s, minDate (monthEnd s) e, "09:00:00", "19:00:00"⟩ :: monthBatchesAux fuel (nextMonthStart s) e
    else []

/-- Calendar-month partition of `[s, e]` computed by the batching loop of
`download_minutes_batch`. -/
def monthBatches (s e : Date) : List Batch :=
  monthBatchesAux (monthIdx e + 1 - monthIdx s) s e

theorem daysInMonth_bounds (y m : Nat) : 28 ≤ daysInMonth y m ∧ daysInMonth y m ≤ 31 := by
  unfold daysInMonth
  split
  · split <;> omega
  · split <;> omega

theorem daysInMonth_december (y : Nat) : daysInMonth y 12 = 31 := by
  unfold daysInMonth
  norm_num

theorem nextMonthStart_valid (t : Date) (h : t.Valid) : (nextMonthStart t).Valid := by
  obtain ⟨h1, h2, _h3, _h4⟩ := h
  unfold nextMonthStart Date.Valid
  have hb1 := daysInMonth_bounds (t.y + 1) 1
  have hb2 := daysInMonth_bounds t.y (t.m + 1)
  split <;> simp <;> omega

theorem key_le_monthEnd_key (t : Date) (h : t.Valid) : t.key ≤ (monthEnd t).key := by
  obtain ⟨_h1, _h2, _h3, h4⟩ := h
  unfold Date.key monthEnd
  simp only
  omega

theorem monthEnd_key_lt_nextMonthStart_key (t : Date) (h : t.Valid) :
    (monthEnd t).key < (nextMonthStart t).key := by
  obtain ⟨h1, h2, _h3, _h4⟩ := h
  have hb := daysInMonth_bounds t.y t.m
  unfold Date.key monthEnd nextMonthStart
  split <;> simp <;> omega

theorem key_lt_nextMonthStart_key (t : Date) (h : t.Valid) : t.key < (nextMonthStart t).key :=
  Nat.lt_of_le_of_lt (key_le_monthEnd_key t h) (monthEnd_key_lt_nextMonthStart_key t h)

theorem monthIdx_nextMonthStart (t : Date) : monthIdx (nextMonthStart t) = monthIdx t + 1 := by
  unfold monthIdx nextMonthStart
  split <;> simp <;> omega

/-- No valid date lies strictly between the last day of `t`'s month and
the first day of the next month: a date past `monthEnd t` is at least
`nextMonthStart t`. -/
theorem nextMonthStart_key_le_of_monthEnd_key_lt (t u : Date) (ht : t.Valid) (hu : u.Valid)
    (h : (monthEnd t).key < u.key) : (nextMonthStart t).key ≤ u.key := by
  obtain ⟨ht1, ht2, _ht3, _ht4⟩ := ht
  obtain ⟨hu1, hu2, hu3, hu4⟩ := hu
  have hbt := daysInMonth_bounds t.y t.m
  have hbu := daysInMonth_bounds u.y u.m
  unfold Date.key monthEnd nextMonthStart at *
  simp only at *
  by_contra hcon
  push_neg at hcon
  by_cases h12 : t.m = 12
  · rw [if_pos h12] at hcon
    rw [h12, daysInMonth_december] at h
    simp only at hcon
    -- u would lie strictly between (t.y, 12, 31) and (t.y+1, 1, 1): impossible
    omega
  · rw [if_neg h12] at hcon
    simp only at hcon
    have huy : u.y = t.y := by omega
    have hum : u.m = t.m := by omega
    have hu4m : u.d ≤ daysInMonth t.y t.m := by rw [huy, hum] at hu4; exact hu4
    omega

theorem key_lt_of_monthIdx_lt (s e : Date) (hs : s.Valid) (he : e.Valid)
    (h : monthIdx e < monthIdx s) : e.key < s.key := by
  obtain ⟨hs1, hs2, hs3, hs4⟩ := hs
  obtain ⟨he1, he2, he3, he4⟩ := he
  have hbs := daysInMonth_bounds s.y s.m
  have hbe := daysInMonth_bounds e.y e.m
  unfold monthIdx at h
  unfold Date.key
  omega

theorem monthIdx_le_of_key_le (s e : Date) (hs : s.Valid) (he : e.Valid)
    (h : s.key ≤ e.key) : monthIdx s ≤ monthIdx e := by
  by_contra hcon
  push_neg at hcon
  have hlt := key_lt_of_monthIdx_lt s e hs he hcon
  omega

theorem minDate_key_le_left (a b : Date) : (minDate a b).key ≤ a.key := by
  unfold minDate
  split <;> omega

theorem minDate_key_le_right (a b : Date) : (minDate a b).key ≤ b.key := by
  unfold minDate
  split <;> omega

/-- The batch `b` covers calendar day `d`. -/
def coversDay (b : Batch) (d : Date) : Bool :=
  decide (b.batch_start.key ≤ d.key ∧ d.key ≤ b.batch_end.key)

theorem monthBatchesAux_start_le (e : Date) :
    ∀ fuel s, s.Valid → ∀ b ∈ monthBatchesAux fuel s e, s.key ≤ b.batch_start.key := by
  intro fuel
  induction fuel with
  | zero => intro s _hs b hb; simp [monthBatchesAux] at hb
  | succ fuel ih =>
    intro s hs b hb
    by_cases hse : s.key ≤ e.key
    · simp only [monthBatchesAux, if_pos hse, List.mem_cons] at hb
      rcases hb with hb | hb
      · subst hb; exact Nat.le_refl _
      · have h1 := ih (nextMonthStart s) (nextMonthStart_valid s hs) b hb
        exact Nat.le_trans (Nat.le_of_lt (key_lt_nextMonthStart_key s hs)) h1
    · simp [monthBatchesAux, if_neg hse] at hb

/-- Core coverage invariant of the batching loop: with enough fuel,
every valid day of `[s, e]` is covered by exactly one emitted sub-range,
and days outside `[s, e]` by none. -/
theorem monthBatchesAux_countP (e : Date) (he : e.Valid) :
    ∀ fuel s, s.Valid → monthIdx e + 1 ≤ fuel + monthIdx s →
    ∀ d : Date, d.Valid →
    (monthBatchesAux fuel s e).countP (fun b => coversDay b d)
      = if s.key ≤ d.key ∧ d.key ≤ e.key then 1 else 0 := by
  intro fuel
  induction fuel with
  | zero =>
    intro s hs hfuel d _hd
    have hlt : e.key < s.key := key_lt_of_monthIdx_lt s e hs he (by omega)
    rw [if_neg (by omega)]
    simp [monthBatchesAux]
  | succ fuel ih =>
    intro s hs hfuel d hd
    by_cases hse : s.key ≤ e.key
    · have hsv' : (nextMonthStart s).Valid := nextMonthStart_valid s hs
      have hrest := ih (nextMonthStart s) hsv'
        (by rw [monthIdx_nextMonthStart]; omega) d hd
      have hme : s.key ≤ (monthEnd s).key := key_le_monthEnd_key s hs
      have hnms : (monthEnd s).key < (nextMonthStart s).key :=
        monthEnd_key_lt_nextMonthStart_key s hs
      have hminl : (minDate (monthEnd s) e).key ≤ (monthEnd s).key :=
        minDate_key_le_left _ _
      have hminr : (minDate (monthEnd s) e).key ≤ e.key :=
        minDate_key_le_right _ _
      have hmincase : (minDate (monthEnd s) e).key = (monthEnd s).key ∨
          (minDate (monthEnd s) e).key = e.key := by
        unfold minDate
        split
        · exact Or.inl rfl
        · exact Or.inr rfl
      have hsucc2 : d.key ≤ (monthEnd s).key ∨ (nextMonthStart s).key ≤ d.key := by
        rcases Nat.lt_or_ge (monthEnd s).key d.key with h | h
        · exact Or.inr (nextMonthStart_key_le_of_monthEnd_key_lt s d hs hd h)
        · exact Or.inl h
      simp only [monthBatchesAux, if_pos hse, List.countP_cons, hrest]
      simp only [coversDay, decide_eq_true_eq]
      split_ifs <;> omega
    · rw [if_neg (by omega)]
      simp [monthBatchesAux, if_neg hse]

/-- Coverage of the month partition: every valid calendar day in
`[s, e]` is covered by exactly one sub-range, and no day outside it by
any. -/
theorem monthBatches_countP (s e : Date) (hs : s.Valid) (he : e.Valid) (hse : s.key ≤ e.key)
    (d : Date) (hd : d.Valid) :
    (monthBatches s e).countP (fun b => coversDay b d)
      = if s.key ≤ d.key ∧ d.key ≤ e.key then 1 else 0 := by
  unfold monthBatches
  have hmi : monthIdx s ≤ monthIdx e := monthIdx_le_of_key_le s e hs he hse
  exact monthBatchesAux_countP e he _ s hs (by omega) d hd

/-! ## Rows, dedup and ordering

The engine persists two row shapes: daily bars keyed by `(ts_code,
trade_date)` and minute bars keyed by `(ts_code, trade_time)`.  The
OHLCV payload is opaque to every claim and is represented by one `Int`
field. -/

/-- A daily bar as returned by `pro.daily`: the merge key columns plus an
opaque payload standing for the OHLCV and adjustment columns.
`trade_date` is a "YYYYMMDD" string (`astype(str)`-normalized before any
merge, src/data_downloader.py lines 505-509). -/
structure DailyBar where
  ts_code : String
  trade_date : String
  close : Int
deriving DecidableEq, Repr

/-- A minute bar as returned by `pro.stk_mins`: `trade_time` is the
provider's timestamp string, `astype(str)`-normalized before any merge
(src/data_downloader.py lines 510-514). -/
structure MinuteBar where
  ts_code : String
  trade_time : String
  close : Int
deriving DecidableEq, Repr

/-- Merge/sort key of a daily bar: the source's
`subset=['ts_code', 'trade_date']`. -/
def DailyBar.mergeKey (r : DailyBar) : String × String := (r.ts_code, r.trade_date)

/-- Merge/sort key of a minute bar: the source's
`subset=['ts_code', 'trade_time']`. -/
def MinuteBar.mergeKey (r : MinuteBar) : String × String := (r.ts_code, r.trade_time)

/-- Pandas `drop_duplicates(subset=key, keep='last')`: a row is kept
exactly when no later row carries the same key, and kept rows stay in
their original relative order. -/
def dropDuplicatesKeepLast {ρ κ : Type} [DecidableEq κ] (key : ρ → κ) : List ρ → List ρ
  | [] => []
  | r :: rest =>
    if rest.any (fun x => decide (key x = key r)) then dropDuplicatesKeepLast key rest
    else r :: dropDuplicatesKeepLast key rest

/-- Comparator of pandas `sort_values([code, time], ascending=[True,
False])`: code ascending and, within one code, time descending. -/
def rowLeb {ρ : Type} (key : ρ → String × String) (a b : ρ) : Bool :=
  strLtb (key a).1 (key b).1 ||
    (decide ((key a).1 = (key b).1) && !(strLtb (key a).2 (key b).2))

/-- Pandas `sort_values([code, time], ascending=[True, False])`: a
comparison sort under `rowLeb` (pandas does not specify the relative
order of rows with equal keys, and no property below depends on it). -/
def sort_values {ρ : Type} (key : ρ → String × String) (l : List ρ) : List ρ :=
  l.insertionSort (fun a b => rowLeb key a b = true)

/-- The list is sorted by (code ascending, time descending). -/
def SortedBy {ρ : Type} (key : ρ → String × String) (l : List ρ) : Prop :=
  l.Pairwise (fun a b => rowLeb key a b = true)

theorem rowLeb_trans {ρ : Type} (key : ρ → String × String) (a b c : ρ)
    (h1 : rowLeb key a b = true) (h2 : rowLeb key b c = true) : rowLeb key a c = true := by
  unfold rowLeb at h1 h2 ⊢
  simp only [Bool.or_eq_true, Bool.and_eq_true, Bool.not_eq_true', decide_eq_true_eq] at h1 h2 ⊢
  rcases h1 with h1 | ⟨h1e, h1le⟩ <;> rcases h2 with h2 | ⟨h2e, h2le⟩
  · exact Or.inl (strLtb_trans _ _ _ h1 h2)
  · rw [h2e] at h1
    exact Or.inl h1
  · rw [h1e]
    exact Or.inl h2
  · refine Or.inr ⟨h1e.trans h2e, ?_⟩
    cases hba2 : strLtb (key b).2 (key a).2
    · have heq : (key a).2 = (key b).2 := strLtb_antisymm _ _ h1le hba2
      rw [heq]
      exact h2le
    · cases hac : strLtb (key a).2 (key c).2
      · rfl
      · have hbc : strLtb (key b).2 (key c).2 = true := strLtb_trans _ _ _ hba2 hac
        rw [hbc] at h2le
        exact h2le

theorem rowLeb_total {ρ : Type} (key : ρ → String × String) (a b : ρ) :
    rowLeb key a b = true ∨ rowLeb key b a = true := by
  unfold rowLeb
  simp only [Bool.or_eq_true, Bool.and_eq_true, Bool.not_eq_true', decide_eq_true_eq]
  cases hab : strLtb (key a).1 (key b).1
  · cases hba : strLtb (key b).1 (key a).1
    · have he : (key a).1 = (key b).1 := strLtb_antisymm _ _ hab hba
      cases h2 : strLtb (key a).2 (key b).2
      · exact Or.inl (Or.inr ⟨he, rfl⟩)
      · exact Or.inr (Or.inr ⟨he.symm, strLtb_asymm _ _ h2⟩)
    · exact Or.inr (Or.inl rfl)
  · exact Or.inl (Or.inl rfl)

theorem sort_values_sorted {ρ : Type} (key : ρ → String × String) (l : List ρ) :
    SortedBy key (sort_values key l) := by
  haveI : IsTotal ρ (fun a b => rowLeb key a b = true) :=
    ⟨fun a b => rowLeb_total key a b⟩
  haveI : IsTrans ρ (fun a b => rowLeb key a b = true) :=
    ⟨fun a b c => rowLeb_trans key a b c⟩
  exact List.sorted_insertionSort (fun a b => rowLeb key a b = true) l

theorem sort_values_perm {ρ : Type} (key : ρ → String × String) (l : List ρ) :
    (sort_values key l).Perm l :=
  List.perm_insertionSort (fun a b => rowLeb key a b = true) l

theorem sort_values_length {ρ : Type} (key : ρ → String × String) (l : List ρ) :
    (sort_values key l).length = l.length :=
  List.length_insertionSort (fun a b => rowLeb key a b = true) l

theorem any_key_eq_false_of_not_mem {ρ κ : Type} [DecidableEq κ] (key : ρ → κ) (r : ρ)
    (rest : List ρ) (h : key r ∉ rest.map key) :
    rest.any (fun x => decide (key x = key r)) = false := by
  rw [List.any_eq_false]
  intro x hx
  simp only [decide_eq_true_eq]
  intro he
  exact h (he ▸ List.mem_map_of_mem key hx)

theorem dropDuplicatesKeepLast_cons {ρ κ : Type} [DecidableEq κ] (key : ρ → κ) (r : ρ)
    (rest : List ρ) :
    dropDuplicatesKeepLast key (r :: rest) =
      if rest.any (fun x => decide (key x = key r)) then dropDuplicatesKeepLast key rest
      else r :: dropDuplicatesKeepLast key rest := rfl

theorem dropDuplicatesKeepLast_eq_of_nodup {ρ κ : Type} [DecidableEq κ] (key : ρ → κ) :
    ∀ l : List ρ, (l.map key).Nodup → dropDuplicatesKeepLast key l = l := by
  intro l
  induction l with
  | nil => intro _h; rfl
  | cons r rest ih =>
    intro h
    rw [List.map_cons, List.nodup_cons] at h
    have hany := any_key_eq_false_of_not_mem key r rest h.1
    simp [dropDuplicatesKeepLast, hany, ih h.2]

/-- Size accounting of keep-last dedup over a concatenation whose left
part has pairwise-distinct keys: each left row colliding with some right
key is dropped, everything else survives. -/
theorem dropDuplicatesKeepLast_append_length {ρ κ : Type} [DecidableEq κ] (key : ρ → κ)
    (nw : List ρ) :
    ∀ ex : List ρ, (ex.map key).Nodup →
    (dropDuplicatesKeepLast key (ex ++ nw)).length
        + ex.countP (fun r => nw.any (fun x => decide (key x = key r)))
      = ex.length + (dropDuplicatesKeepLast key nw).length := by
  intro ex
  induction ex with
  | nil => intro _h; simp
  | cons r rest ih =>
    intro h
    rw [List.map_cons, List.nodup_cons] at h
    have hrest := any_key_eq_false_of_not_mem key r rest h.1
    have hcond : (rest ++ nw).any (fun x => decide (key x = key r))
        = nw.any (fun x => decide (key x = key r)) := by
      rw [List.any_append, hrest, Bool.false_or]
    have hih := ih h.2
    rw [List.cons_append, dropDuplicatesKeepLast_cons, hcond, List.countP_cons,
      List.length_cons]
    cases hnw : nw.any (fun x => decide (key x = key r)) <;> simp <;> omega

/-- Every key present in the input survives keep-last dedup on some
row. -/
theorem dropDuplicatesKeepLast_key_surj {ρ κ : Type} [DecidableEq κ] (key : ρ → κ) :
    ∀ (l : List ρ) (r : ρ), r ∈ l →
    ∃ r2 ∈ dropDuplicatesKeepLast key l, key r2 = key r := by
  intro l
  induction l with
  | nil => intro r hr; cases hr
  | cons a rest ih =>
    intro r hr
    rw [dropDuplicatesKeepLast_cons]
    cases hc : rest.any (fun x => decide (key x = key a))
    · rw [if_neg (by simp)]
      rcases List.mem_cons.mp hr with he | hm
      · exact ⟨a, List.mem_cons_self a _, by rw [he]⟩
      · rcases ih r hm with ⟨r2, hr2, hk2⟩
        exact ⟨r2, List.mem_cons_of_mem a hr2, hk2⟩
    · rw [if_pos rfl]
      rcases List.mem_cons.mp hr with he | hm
      · rcases List.any_eq_true.mp hc with ⟨x, hx, hkx⟩
        rcases ih x hx with ⟨r2, hr2, hk2⟩
        refine ⟨r2, hr2, ?_⟩
        rw [hk2, decide_eq_true_eq.mp hkx, he]
      · exact ih r hm

/-! ## Merge-dedup-persist: `save_data_to_file`

src/data_downloader.py lines 465-558.  The function receives the rows to
persist, the `append` argument (`None` means: derive from
`date_ranges.update_mode`), and interacts with the file system: whether
the target file exists, and the outcome of reading(+merging) the
existing content, which the source wraps in `try/except`.  The result is
the content written, or `none` when no write happens.  The function is
total: a read/merge failure is caught and degrades to overwriting with
the new rows (lines 546-548); it is never re-raised. -/
def save_data_to_file {ρ : Type} (key : ρ → String × String)
    (data : List ρ) (update_mode : String) (append : Option Bool)
    (file_exists : Bool) (read_existing : Except String (List ρ)) : Option (List ρ) :=
  if data.isEmpty then none
  else
    let app := append.getD (update_mode == "incremental")
    if app && file_exists then
      match read_existing with
      | Except.ok existing_data =>
        some (sort_values key (dropDuplicatesKeepLast key (existing_data ++ data)))
      | Except.error _ => some data
    else
      some (sort_values key data)

/-! ## Batched retrieval: `download_minutes_batch`

src/data_downloader.py lines 148-273.  The remote call bound to one
sub-range is a fallible operation (`Except`); a failing sub-range is
logged and skipped (lines 231-233), the rest are concatenated,
deduplicated on `(ts_code, trade_time)` keeping the last occurrence, and
sorted (lines 243-266).  The whole body is wrapped in `try/except`
returning an empty frame; in the embedding that totality is intrinsic. -/

/-- Numeric value of an all-digit string, `none` otherwise. -/
def strToNat (s : String) : Option Nat :=
  if s.data.isEmpty then none
  else
    s.data.foldl
      (fun acc c =>
        match acc with
        | none => none
        | some n => if 48 ≤ c.toNat ∧ c.toNat ≤ 57 then some (n * 10 + (c.toNat - 48)) else none)
      (some 0)

/-- Parse a "YYYYMMDD" argument the way
`pd.to_datetime(s, format='%Y%m%d')` accepts it; `none` embeds the
raised exception (caught by the enclosing handler). -/
def parseDate (s : String) : Option Date :=
  match strToNat s with
  | some n => if s.length = 8 then some ⟨n / 10000, n / 100 % 100, n % 100⟩ else none
  | none => none

/-- The sub-ranges `download_minutes_batch` actually fetches: empty when
the range is inverted; clamped to the listing date when
`start < list_date` (src/data_downloader.py lines 170-186), empty when
the listing date lies past the end; otherwise the calendar-month
partition of the effective range. -/
def minuteBatchPlan (start_dt end_dt : Date) (list_date : Option Date) : List Batch :=
  if end_dt.key < start_dt.key then []
  else
    match list_date with
    | some ld =>
      if start_dt.key < ld.key then
        if end_dt.key < ld.key then [] else monthBatches ld end_dt
      else monthBatches start_dt end_dt
    | none => monthBatches start_dt end_dt

/-- Batched minute download (src/data_downloader.py lines 148-273).
`fetch` is `interface_func` with `ts_code` and `freq` already bound (the
embedding drops those two pass-through arguments); `list_date` is the
result of `get_asset_list_date`, already validated to be a date. -/
def download_minutes_batch (start_date end_date : String) (list_date : Option Date)
    (fetch : Batch → Except String (List MinuteBar)) : List MinuteBar :=
  match parseDate start_date, parseDate end_date with
  | some start_dt, some end_dt =>
    let plan := minuteBatchPlan start_dt end_dt list_date
    let all_data := plan.foldl (fun acc b =>
      match fetch b with
      | Except.ok batch_data => acc ++ batch_data
      | Except.error _ => acc) []
    if all_data.isEmpty then []
    else sort_values MinuteBar.mergeKey (dropDuplicatesKeepLast MinuteBar.mergeKey all_data)
  | _, _ => []

/-! ## Daily download: `download_stock_daily`

src/stock_downloader.py lines 104-149.  The planned range is passed to
the provider unchanged — there is no listing-date clamp on the daily
path.  The adjustment-factor merge (lines 119-143) only augments each
returned row with adjusted-price columns, which live inside the opaque
payload; a failure of either call is caught and yields an empty frame. -/
def download_stock_daily (ts_code start_date end_date : String)
    (fetch_daily : String → String → String → Except String (List DailyBar))
    (fetch_adj : String → String → String → Except String Unit) : List DailyBar :=
  match fetch_daily ts_code start_date end_date with
  | Except.error _ => []
  | Except.ok daily_data =>
    if daily_data.isEmpty then []
    else
      match fetch_adj ts_code start_date end_date with
      | Except.error _ => []
      | Except.ok _ => daily_data

/-! ## Sync state store and the per-code iteration

src/data_downloader.py lines 324-339 and 416-463;
src/stock_downloader.py lines 181-240 (the fund and index downloaders,
src/fund_downloader.py lines 201-261 and src/index_downloader.py lines
181-241, repeat the same logic verbatim). -/

/-- One row of the `last_sync_<asset>_<freq>.csv` watermark table. -/
structure SyncRecord where
  ts_code : String
  last_date : String
deriving DecidableEq, Repr

/-- Watermark of one code: the source filters the table on `ts_code` and
reads `iloc[0]['last_date']` (src/data_downloader.py lines 440-444). -/
def lastSyncFor (sync_info : List SyncRecord) (ts_code : String) : Option String :=
  match sync_info.filter (fun e => e.ts_code == ts_code) with
  | [] => none
  | e :: _ => some e.last_date

/-- Read-modify-write of the watermark table: drop any row of this code,
append the new one (src/stock_downloader.py lines 229-233). -/
def update_sync_info (sync_info : List SyncRecord) (ts_code latest_date : String) :
    List SyncRecord :=
  sync_info.filter (fun e => e.ts_code != ts_code) ++ [⟨ts_code, latest_date⟩]

/-- Pandas `.max()` over a string column (nonempty in every use site). -/
def maxStr (l : List String) : String :=
  l.foldl (fun acc s => if strLtb acc s then s else acc) ""

/-- The incremental branch of `calculate_download_range`
(src/data_downloader.py lines 437-463).  `next_day` embeds
`pd.to_datetime(last) + timedelta(days=1)` re-formatted to "YYYYMMDD";
`lookback_start` embeds `today - lookback_days` for the "auto" default
start. -/
def calculate_download_range_incremental (ts_code : String) (sync_info : List SyncRecord)
    (default_start_date default_end_date today lookback_start : String)
    (next_day : String → String) : String × String :=
  let start_date :=
    match lastSyncFor sync_info ts_code with
    | some last_date => next_day last_date
    | none => if default_start_date == "auto" then lookback_start else default_start_date
  let end_date := if default_end_date == "auto" then today else default_end_date
  (start_date, end_date)

theorem lastSyncFor_update (sync_info : List SyncRecord) (c latest : String) :
    lastSyncFor (update_sync_info sync_info c latest) c = some latest := by
  unfold lastSyncFor update_sync_info
  rw [List.filter_append]
  have h1 : (sync_info.filter (fun e => e.ts_code != c)).filter (fun e => e.ts_code == c)
      = [] := by
    rw [List.filter_filter, List.filter_eq_nil_iff]
    intro e _he
    simp
  rw [h1]
  simp

/-- Rows of every successfully fetched sub-range end up in the
accumulated row list of the batching loop. -/
theorem mem_foldl_collect (fetch : Batch → Except String (List MinuteBar)) :
    ∀ (plan : List Batch) (acc : List MinuteBar) (r : MinuteBar),
    (r ∈ acc ∨ ∃ b ∈ plan, ∃ rows, fetch b = Except.ok rows ∧ r ∈ rows) →
    r ∈ plan.foldl (fun acc2 b =>
      match fetch b with
      | Except.ok batch_data => acc2 ++ batch_data
      | Except.error _ => acc2) acc := by
  intro plan
  induction plan with
  | nil =>
    intro acc r h
    rcases h with h | ⟨b, hb, _⟩
    · exact h
    · cases hb
  | cons b0 rest ih =>
    intro acc r h
    rw [List.foldl_cons]
    apply ih
    rcases h with h | ⟨b, hb, rows, hrows, hr⟩
    · left
      cases hf : fetch b0 <;> simp [hf, h]
    · rcases List.mem_cons.mp hb with he | hm
      · left
        rw [← he, hrows]
        exact List.mem_append_right acc hr
      · exact Or.inr ⟨b, hm, rows, hrows, hr⟩

theorem monthBatchesAux_bounds (e : Date) :
    ∀ fuel s, ∀ b ∈ monthBatchesAux fuel s e,
      b.start_bound = "09:00:00" ∧ b.end_bound = "19:00:00" := by
  intro fuel
  induction fuel with
  | zero => intro s b hb; cases hb
  | succ fuel ih =>
    intro s b hb
    by_cases hse : s.key ≤ e.key
    · rw [monthBatchesAux, if_pos hse] at hb
      rcases List.mem_cons.mp hb with he | hm
      · rw [he]
        exact ⟨rfl, rfl⟩
      · exact ih (nextMonthStart s) b hm
    · rw [monthBatchesAux, if_neg hse] at hb
      cases hb

/-- Outcome of one frequency iteration of `download_single_stock` /
`download_single_fund`: whether a fetch was attempted, the file content
written (`none` = no write), and the resulting watermark table. -/
structure DailyStepResult where
  performed_fetch : Bool
  written : Option (List DailyBar)
  sync_info : List SyncRecord
deriving DecidableEq, Repr

/-- Same shape for a sub-daily frequency iteration. -/
structure MinuteStepResult where
  performed_fetch : Bool
  written : Option (List MinuteBar)
  sync_info : List SyncRecord
deriving DecidableEq, Repr

/-- One `freq = 'daily'` iteration of the loop in `download_single_stock`
(src/stock_downloader.py lines 190-240): skip when
`start_date >= end_date` (Python string comparison); otherwise fetch,
and when rows came back persist them, then update the watermark to the
maximum `trade_date` among the fetched rows.  When zero rows came back,
only a warning is logged (line 237): no write, no watermark change. -/
def download_single_step_daily (ts_code start_date end_date update_mode : String)
    (fetch_daily : String → String → String → Except String (List DailyBar))
    (fetch_adj : String → String → String → Except String Unit)
    (file_exists : Bool) (read_existing : Except String (List DailyBar))
    (sync_info : List SyncRecord) : DailyStepResult :=
  if strGeb start_date end_date then ⟨false, none, sync_info⟩
  else
    let data := download_stock_daily ts_code start_date end_date fetch_daily fetch_adj
    if data.isEmpty then ⟨true, none, sync_info⟩
    else
      let written := save_data_to_file DailyBar.mergeKey data update_mode none
        file_exists read_existing
      let latest_date := maxStr (data.map DailyBar.trade_date)
      ⟨true, written, update_sync_info sync_info ts_code latest_date⟩

/-- One sub-daily iteration of the same loop: the watermark becomes the
first 8 characters of the maximum `trade_time`
(src/stock_downloader.py line 224). -/
def download_single_step_minute (ts_code start_date end_date update_mode : String)
    (list_date : Option Date)
    (fetch : Batch → Except String (List MinuteBar))
    (file_exists : Bool) (read_existing : Except String (List MinuteBar))
    (sync_info : List SyncRecord) : MinuteStepResult :=
  if strGeb start_date end_date then ⟨false, none, sync_info⟩
  else
    let data := download_minutes_batch start_date end_date list_date fetch
    if data.isEmpty then ⟨true, none, sync_info⟩
    else
      let written := save_data_to_file MinuteBar.mergeKey data update_mode none
        file_exists read_existing
      let latest_date := (maxStr (data.map MinuteBar.trade_time)).take 8
      ⟨true, written, update_sync_info sync_info ts_code latest_date⟩

/-- One incremental-mode synchronization of a (code, daily) pair: plan
the range from the watermark table, then run the fetch-persist-advance
iteration.  `update_mode` is "incremental" on this path, so
`save_data_to_file` resolves `append=None` to the merge discipline. -/
def synchronize_incremental_daily (ts_code : String)
    (default_start_date default_end_date today lookback_start : String)
    (next_day : String → String)
    (fetch_daily : String → String → String → Except String (List DailyBar))
    (fetch_adj : String → String → String → Except String Unit)
    (file_exists : Bool) (read_existing : Except String (List DailyBar))
    (sync_info : List SyncRecord) : DailyStepResult :=
  let r := calculate_download_range_incremental ts_code sync_info
    default_start_date default_end_date today lookback_start next_day
  download_single_step_daily ts_code r.1 r.2 "incremental"
    fetch_daily fetch_adj file_exists read_existing sync_info

/-- Trade dates of a 100-row stored dataset with pairwise-distinct
(ts_code, trade_date) keys, used to witness the dedup size law. -/
def c5exDates : List String :=
 ["10000001", "10000002", "10000003", "10000004", "10000005", "10000006", "10000007",
  "10000008", "10000009", "10000010", "10000011", "10000012", "10000013", "10000014",
  "10000015", "10000016", "10000017", "10000018", "10000019", "10000020", "10000021",
  "10000022", "10000023", "10000024", "10000025", "10000026", "10000027", "10000028",
  "10000029", "10000030", "10000031", "10000032", "10000033", "10000034", "10000035",
  "10000036", "10000037", "10000038", "10000039", "10000040", "10000041", "10000042",
  "10000043", "10000044", "10000045", "10000046", "10000047", "10000048", "10000049",
  "10000050", "10000051", "10000052", "10000053", "10000054", "10000055", "10000056",
  "10000057", "10000058", "10000059", "10000060", "10000061", "10000062", "10000063",
  "10000064", "10000065", "10000066", "10000067", "10000068", "10000069", "10000070",
  "10000071", "10000072", "10000073", "10000074", "10000075", "10000076", "10000077",
  "10000078", "10000079", "10000080", "10000081", "10000082", "10000083", "10000084",
  "10000085", "10000086", "10000087", "10000088", "10000089", "10000090", "10000091",
  "10000092", "10000093", "10000094", "10000095", "10000096", "10000097", "10000098",
  "10000099", "10000100"]

/-- Trade dates of a 10-row new batch whose first 3 keys collide with
the stored dataset. -/
def c5nwDates : List String :=
 ["10000098", "10000099", "10000100", "20000001", "20000002", "20000003", "20000004",
  "20000005", "20000006", "20000007"]

/-- The 100-row stored dataset of the dedup size-law witness. -/
def c5ex : List DailyBar := c5exDates.map (fun td => ⟨"c", td, 0⟩)

/-- The 10-row new batch of the dedup size-law witness. -/
def c5nw : List DailyBar := c5nwDates.map (fun td => ⟨"c", td, 1⟩)

/-! ## Claim theorems -/

/-- C4: for every valid range `start ≤ end`, the batching loop of
`download_minutes_batch` partitions `[start, end]` into calendar-month
sub-ranges clipped to the outer bounds, each carrying the session
time-of-day bounds, such that every calendar day in `[start, end]` is
covered by exactly one sub-range (no gaps, no day twice) and no day
outside it by any; in particular start=20190101, end=20190301 yields
exactly the 3 sub-ranges [0101,0131], [0201,0228], [0301,0301]. -/
theorem c4_month_partition_coverage :
    (∀ s e : Date, s.Valid → e.Valid → s.key ≤ e.key → ∀ d : Date, d.Valid →
        (monthBatches s e).countP (fun b => coversDay b d)
          = if s.key ≤ d.key ∧ d.key ≤ e.key then 1 else 0)
    ∧ (∀ s e : Date, ∀ b ∈ monthBatches s e,
        b.start_bound = "09:00:00" ∧ b.end_bound = "19:00:00")
    ∧ monthBatches ⟨2019, 1, 1⟩ ⟨2019, 3, 1⟩ =
        [⟨⟨2019, 1, 1⟩, ⟨2019, 1, 31⟩, "09:00:00", "19:00:00"⟩,
         ⟨⟨2019, 2, 1⟩, ⟨2019, 2, 28⟩, "09:00:00", "19:00:00"⟩,
         ⟨⟨2019, 3, 1⟩, ⟨2019, 3, 1⟩, "09:00:00", "19:00:00"⟩] := by
  refine ⟨monthBatches_countP, ?_, by decide⟩
  intro s e b hb
  exact monthBatchesAux_bounds e _ s b hb

/-- Witness for C4: the day 20190215 inside the range [20190101,
20190301] is covered by exactly one of the emitted sub-ranges. -/
theorem c4_month_partition_coverage_witness :
    (monthBatches ⟨2019, 1, 1⟩ ⟨2019, 3, 1⟩).countP
        (fun b => coversDay b ⟨2019, 2, 15⟩)
      = if (Date.key ⟨2019, 1, 1⟩ ≤ Date.key ⟨2019, 2, 15⟩
            ∧ Date.key ⟨2019, 2, 15⟩ ≤ Date.key ⟨2019, 3, 1⟩) then 1 else 0 :=
  c4_month_partition_coverage.1 ⟨2019, 1, 1⟩ ⟨2019, 3, 1⟩ (by decide) (by decide)
    (by decide) ⟨2019, 2, 15⟩ (by decide)

/-- C10: calling `save_data_to_file` with an empty DataFrame is a no-op
for every file state, append flag and configuration: it returns before
touching the file system, so nothing on disk changes. -/
theorem c10_empty_data_is_noop :
    ∀ (ρ : Type) (key : ρ → String × String) (update_mode : String) (append : Option Bool)
      (file_exists : Bool) (read_existing : Except String (List ρ)),
      save_data_to_file key [] update_mode append file_exists read_existing = none := by
  intro ρ key update_mode append file_exists read_existing
  rfl

/-- C8: when `save_data_to_file` in (resolved) append mode hits a
read/merge failure on the existing file, it recovers by writing exactly
the new rows in place of the prior content; the embedding is a total
function, reflecting that the source catches the failure and never
re-raises it to the caller. -/
theorem c8_merge_failure_falls_back_to_new_rows :
    ∀ (ρ : Type) (key : ρ → String × String) (data : List ρ) (update_mode : String)
      (append : Option Bool) (msg : String),
      data.isEmpty = false →
      append.getD (update_mode == "incremental") = true →
      save_data_to_file key data update_mode append true (Except.error msg) = some data := by
  intro ρ key data update_mode append msg hdata happ
  unfold save_data_to_file
  rw [hdata, happ]
  simp

/-- Witness for C8: a two-row frame written in incremental mode over an
unreadable file ends up persisted as exactly those two rows. -/
theorem c8_merge_failure_falls_back_to_new_rows_witness :
    save_data_to_file DailyBar.mergeKey
        [⟨"c", "20240101", 1⟩, ⟨"c", "20240102", 2⟩] "incremental" none true
        (Except.error "unreadable existing file")
      = some [⟨"c", "20240101", 1⟩, ⟨"c", "20240102", 2⟩] :=
  c8_merge_failure_falls_back_to_new_rows DailyBar DailyBar.mergeKey
    [⟨"c", "20240101", 1⟩, ⟨"c", "20240102", 2⟩] "incremental" none
    "unreadable existing file" (by decide) (by decide)

/-- C6 counterexample: the merge-failure fallback of
`save_data_to_file` writes the new rows exactly as passed in (line 548
of src/data_downloader.py saves `data` without sorting), so a write can
persist rows that are not sorted by (ts_code ascending, trade_date
descending), contradicting the claim that every write leaves the
dataset so sorted. -/
theorem c6_fallback_writes_unsorted :
    save_data_to_file DailyBar.mergeKey
        [⟨"c", "20240101", 1⟩, ⟨"c", "20240102", 2⟩] "incremental" none true
        (Except.error "unreadable")
      = some [⟨"c", "20240101", 1⟩, ⟨"c", "20240102", 2⟩]
    ∧ ¬ SortedBy DailyBar.mergeKey [⟨"c", "20240101", 1⟩, ⟨"c", "20240102", 2⟩] := by
  constructor
  · decide
  · intro h
    have h2 := (List.pairwise_cons.mp h).1 _ (List.mem_cons_self _ _)
    revert h2
    decide

/-- C6 amended: after an append-merge write or an overwrite write, the
persisted dataset is sorted by (ts_code ascending, trade_date/trade_time
descending); only the merge-failure fallback writes the new rows
unsorted, as passed in. -/
theorem c6_sorted_after_merge_or_overwrite :
    ∀ (ρ : Type) (key : ρ → String × String) (data : List ρ) (update_mode : String)
      (append : Option Bool) (file_exists : Bool) (read_existing : Except String (List ρ))
      (out : List ρ),
      (read_existing.isOk = true
        ∨ (append.getD (update_mode == "incremental") && file_exists) = false) →
      save_data_to_file key data update_mode append file_exists read_existing = some out →
      SortedBy key out := by
  intro ρ key data update_mode append file_exists read_existing out hok hsave
  unfold save_data_to_file at hsave
  by_cases hdata : data.isEmpty
  · rw [if_pos hdata] at hsave
    cases hsave
  · rw [if_neg hdata] at hsave
    simp only at hsave
    cases happ : append.getD (update_mode == "incremental") && file_exists
    · rw [happ] at hsave
      simp only [Bool.false_eq_true, if_false] at hsave
      cases hsave
      exact sort_values_sorted key data
    · rw [happ] at hsave
      simp only [if_true] at hsave
      cases hre : read_existing with
      | ok existing_data =>
        rw [hre] at hsave
        simp only at hsave
        cases hsave
        exact sort_values_sorted key _
      | error msg =>
        rcases hok with hok | hok
        · rw [hre] at hok
          cases hok
        · rw [happ] at hok
          cases hok

/-- Witness for C6 (amended): merging one new row into a readable
one-row store yields a sorted persisted dataset. -/
theorem c6_sorted_after_merge_or_overwrite_witness :
    SortedBy DailyBar.mergeKey [⟨"c", "20240102", 2⟩, ⟨"c", "20240101", 1⟩] :=
  c6_sorted_after_merge_or_overwrite DailyBar DailyBar.mergeKey
    [⟨"c", "20240102", 2⟩] "incremental" none true
    (Except.ok [⟨"c", "20240101", 1⟩]) [⟨"c", "20240102", 2⟩, ⟨"c", "20240101", 1⟩]
    (Or.inl rfl) (by decide)

/-- C2 counterexample: at the boundary `start_date = end_date` the
downloader skips (the guard is `start_date >= end_date`, line 195 of
src/stock_downloader.py), although the claim requires a fetch whenever
`start_date ≤ end_date`.  Here start = end = "20240601", start is not
strictly greater than end, yet no fetch is performed. -/
theorem c2_boundary_start_eq_end_is_skipped :
    (download_single_step_daily "000001.SZ" "20240601" "20240601" "incremental"
        (fun _ _ _ => Except.ok [⟨"000001.SZ", "20240601", 1⟩])
        (fun _ _ _ => Except.ok ()) false (Except.ok []) []).performed_fetch = false
    ∧ strLtb "20240601" "20240601" = false := by
  constructor
  · decide
  · decide

/-- C2 amended: for every code and frequency the downloader skips the
fetch and treats the code as already up to date exactly when the planned
`start_date >= end_date` (Python string comparison, so equality is also
skipped); whenever `start_date < end_date` a fetch is performed; the
skip returns normally with the state unchanged (not an error). -/
theorem c2_skip_iff_start_ge_end :
    (∀ (ts_code start_date end_date update_mode : String)
       (fetch_daily : String → String → String → Except String (List DailyBar))
       (fetch_adj : String → String → String → Except String Unit)
       (file_exists : Bool) (read_existing : Except String (List DailyBar))
       (sync_info : List SyncRecord),
       ((download_single_step_daily ts_code start_date end_date update_mode fetch_daily
           fetch_adj file_exists read_existing sync_info).performed_fetch = true
         ↔ strGeb start_date end_date = false)
       ∧ (strGeb start_date end_date = true →
           download_single_step_daily ts_code start_date end_date update_mode fetch_daily
             fetch_adj file_exists read_existing sync_info = ⟨false, none, sync_info⟩))
    ∧ (∀ (ts_code start_date end_date update_mode : String) (list_date : Option Date)
        (fetch : Batch → Except String (List MinuteBar))
        (file_exists : Bool) (read_existing : Except String (List MinuteBar))
        (sync_info : List SyncRecord),
        ((download_single_step_minute ts_code start_date end_date update_mode list_date
            fetch file_exists read_existing sync_info).performed_fetch = true
          ↔ strGeb start_date end_date = false)
        ∧ (strGeb start_date end_date = true →
            download_single_step_minute ts_code start_date end_date update_mode list_date
              fetch file_exists read_existing sync_info = ⟨false, none, sync_info⟩)) := by
  constructor
  · intro ts_code start_date end_date update_mode fetch_daily fetch_adj file_exists
      read_existing sync_info
    unfold download_single_step_daily
    cases hge : strGeb start_date end_date
    · refine ⟨?_, ?_⟩
      · simp only [Bool.false_eq_true, if_false]
        constructor
        · intro _h
          trivial
        · intro _h
          split <;> rfl
      · intro h
        cases h
    · refine ⟨by simp, ?_⟩
      · intro _h
        rfl
  · intro ts_code start_date end_date update_mode list_date fetch file_exists
      read_existing sync_info
    unfold download_single_step_minute
    cases hge : strGeb start_date end_date
    · refine ⟨?_, ?_⟩
      · simp only [Bool.false_eq_true, if_false]
        constructor
        · intro _h
          trivial
        · intro _h
          split <;> rfl
      · intro h
        cases h
    · refine ⟨by simp, ?_⟩
      · intro _h
        rfl

/-- Witness for C2 (amended): with start "20240701" past end "20240601"
the daily iteration returns unchanged state and no fetch. -/
theorem c2_skip_iff_start_ge_end_witness :
    download_single_step_daily "000001.SZ" "20240701" "20240601" "incremental"
        (fun _ _ _ => Except.ok []) (fun _ _ _ => Except.ok ()) false (Except.ok [])
        [⟨"000001.SZ", "20240630"⟩]
      = ⟨false, none, [⟨"000001.SZ", "20240630"⟩]⟩ :=
  (c2_skip_iff_start_ge_end.1 "000001.SZ" "20240701" "20240601" "incremental"
    (fun _ _ _ => Except.ok []) (fun _ _ _ => Except.ok ()) false (Except.ok [])
    [⟨"000001.SZ", "20240630"⟩]).2 (by decide)

/-- C1 counterexample: a fetch that returns zero rows does not advance
the watermark at all — the source only logs a warning (line 237 of
src/stock_downloader.py) and leaves the sync table untouched — whereas
the claim requires the watermark to move to the requested end_date
"20240701".  The prior watermark "20240601" survives unchanged. -/
theorem c1_empty_fetch_does_not_advance_watermark :
    (download_single_step_daily "000001.SZ" "20240602" "20240701" "incremental"
        (fun _ _ _ => Except.ok []) (fun _ _ _ => Except.ok ()) true
        (Except.ok [⟨"000001.SZ", "20240601", 1⟩])
        [⟨"000001.SZ", "20240601"⟩]).sync_info = [⟨"000001.SZ", "20240601"⟩]
    ∧ (download_single_step_daily "000001.SZ" "20240602" "20240701" "incremental"
        (fun _ _ _ => Except.ok []) (fun _ _ _ => Except.ok ()) true
        (Except.ok [⟨"000001.SZ", "20240601", 1⟩])
        [⟨"000001.SZ", "20240601"⟩]).performed_fetch = true
    ∧ ("20240601" : String) ≠ "20240701" := by
  refine ⟨by decide, by decide, by decide⟩

/-- C1 amended: after a fetch that returned rows, the watermark for the
code becomes the maximum trade_date among fetched rows for daily
frequency, and the first 8 characters of the maximum trade_time for
sub-daily frequency; after a fetch that returned zero rows the sync
table is left unchanged (no end_date fallback on this path — the source
only reaches `latest_date = end_date` when a nonempty frame lacks the
expected time column, which typed rows always carry). -/
theorem c1_watermark_after_fetch :
    (∀ (ts_code start_date end_date update_mode : String)
       (fetch_daily : String → String → String → Except String (List DailyBar))
       (fetch_adj : String → String → String → Except String Unit)
       (file_exists : Bool) (read_existing : Except String (List DailyBar))
       (sync_info : List SyncRecord),
       strGeb start_date end_date = false →
       ∀ data, data = download_stock_daily ts_code start_date end_date fetch_daily fetch_adj →
         (data.isEmpty = false →
           lastSyncFor (download_single_step_daily ts_code start_date end_date update_mode
               fetch_daily fetch_adj file_exists read_existing sync_info).sync_info ts_code
             = some (maxStr (data.map DailyBar.trade_date)))
         ∧ (data.isEmpty = true →
             (download_single_step_daily ts_code start_date end_date update_mode
                 fetch_daily fetch_adj file_exists read_existing sync_info).sync_info
               = sync_info))
    ∧ (∀ (ts_code start_date end_date update_mode : String) (list_date : Option Date)
        (fetch : Batch → Except String (List MinuteBar))
        (file_exists : Bool) (read_existing : Except String (List MinuteBar))
        (sync_info : List SyncRecord),
        strGeb start_date end_date = false →
        ∀ data, data = download_minutes_batch start_date end_date list_date fetch →
          (data.isEmpty = false →
            lastSyncFor (download_single_step_minute ts_code start_date end_date update_mode
                list_date fetch file_exists read_existing sync_info).sync_info ts_code
              = some ((maxStr (data.map MinuteBar.trade_time)).take 8))
          ∧ (data.isEmpty = true →
              (download_single_step_minute ts_code start_date end_date update_mode
                  list_date fetch file_exists read_existing sync_info).sync_info
                = sync_info)) := by
  constructor
  · intro ts_code start_date end_date update_mode fetch_daily fetch_adj file_exists
      read_existing sync_info hge data hdata
    unfold download_single_step_daily
    rw [hge]
    simp only [Bool.false_eq_true, if_false]
    rw [← hdata]
    constructor
    · intro hne
      rw [hne]
      simp only [Bool.false_eq_true, if_false]
      exact lastSyncFor_update sync_info ts_code _
    · intro he
      rw [he]
      simp
  · intro ts_code start_date end_date update_mode list_date fetch file_exists
      read_existing sync_info hge data hdata
    unfold download_single_step_minute
    rw [hge]
    simp only [Bool.false_eq_true, if_false]
    rw [← hdata]
    constructor
    · intro hne
      rw [hne]
      simp only [Bool.false_eq_true, if_false]
      exact lastSyncFor_update sync_info ts_code _
    · intro he
      rw [he]
      simp

/-- Witness for C1 (amended): a daily fetch returning rows dated
20240603 and 20240602 moves the watermark to 20240603, the maximum
fetched trade_date. -/
theorem c1_watermark_after_fetch_witness :
    lastSyncFor (download_single_step_daily "000001.SZ" "20240601" "20240701" "incremental"
        (fun _ _ _ => Except.ok [⟨"000001.SZ", "20240603", 1⟩, ⟨"000001.SZ", "20240602", 2⟩])
        (fun _ _ _ => Except.ok ()) false (Except.ok []) []).sync_info "000001.SZ"
      = some (maxStr ([⟨"000001.SZ", "20240603", 1⟩,
          (⟨"000001.SZ", "20240602", 2⟩ : DailyBar)].map DailyBar.trade_date)) :=
  ((c1_watermark_after_fetch.1 "000001.SZ" "20240601" "20240701" "incremental"
      (fun _ _ _ => Except.ok [⟨"000001.SZ", "20240603", 1⟩, ⟨"000001.SZ", "20240602", 2⟩])
      (fun _ _ _ => Except.ok ()) false (Except.ok []) [] (by decide)
      [⟨"000001.SZ", "20240603", 1⟩, ⟨"000001.SZ", "20240602", 2⟩] (by decide)).1 (by decide))

/-- C3 counterexample: the daily download path performs no listing-date
clamp — `download_stock_daily` passes the planned `start_date` to the
provider unchanged (src/stock_downloader.py lines 108-113) and returns
whatever rows come back, here a row dated 20190101 although the
instrument lists only on 20190115.  The claim asserts the clamp for
every frequency; it holds only on the sub-daily batch path. -/
theorem c3_daily_download_no_listing_clamp :
    download_stock_daily "000001.SZ" "20190101" "20190201"
        (fun _ s _ => Except.ok [⟨"000001.SZ", s, 1⟩])
        (fun _ _ _ => Except.ok ())
      = [⟨"000001.SZ", "20190101", 1⟩]
    ∧ strLtb "20190101" "20190115" = true := by
  constructor
  · decide
  · decide

/-- C3 amended: on the sub-daily path (`download_minutes_batch`) the
effective fetch start never precedes the listing date — every fetched
sub-range starts at or after it, and when the listing date lies past the
requested end the request fetches nothing and yields an empty result.
The daily path passes the planned range to the provider unchanged. -/
theorem c3_minute_listing_clamp :
    ∀ (start_date end_date : String) (start_dt end_dt ld : Date)
      (fetch : Batch → Except String (List MinuteBar)),
      parseDate start_date = some start_dt → parseDate end_date = some end_dt →
      start_dt.Valid → ld.Valid →
      (∀ b ∈ minuteBatchPlan start_dt end_dt (some ld), ld.key ≤ b.batch_start.key)
      ∧ (end_dt.key < ld.key →
          minuteBatchPlan start_dt end_dt (some ld) = []
          ∧ download_minutes_batch start_date end_date (some ld) fetch = []) := by
  intro start_date end_date start_dt end_dt ld fetch hps hpe hsv hldv
  have hplan : ∀ b ∈ minuteBatchPlan start_dt end_dt (some ld), ld.key ≤ b.batch_start.key := by
    intro b hb
    unfold minuteBatchPlan at hb
    by_cases h1 : end_dt.key < start_dt.key
    · rw [if_pos h1] at hb
      cases hb
    · rw [if_neg h1] at hb
      simp only at hb
      by_cases h2 : start_dt.key < ld.key
      · rw [if_pos h2] at hb
        by_cases h3 : end_dt.key < ld.key
        · rw [if_pos h3] at hb
          cases hb
        · rw [if_neg h3] at hb
          unfold monthBatches at hb
          exact monthBatchesAux_start_le end_dt _ ld hldv b hb
      · rw [if_neg h2] at hb
        unfold monthBatches at hb
        have hs := monthBatchesAux_start_le end_dt _ start_dt hsv b hb
        omega
  refine ⟨hplan, ?_⟩
  intro hlt
  have hpl : minuteBatchPlan start_dt end_dt (some ld) = [] := by
    unfold minuteBatchPlan
    by_cases h1 : end_dt.key < start_dt.key
    · rw [if_pos h1]
    · rw [if_neg h1]
      simp only
      rw [if_pos (by omega), if_pos hlt]
  refine ⟨hpl, ?_⟩
  unfold download_minutes_batch
  rw [hps, hpe]
  simp only [hpl, List.foldl_nil, List.isEmpty_nil, if_true]

/-- Witness for C3 (amended): a listing date 20190401 past the end
20190301 makes the batched download fetch nothing and return empty. -/
theorem c3_minute_listing_clamp_witness :
    download_minutes_batch "20190101" "20190301" (some ⟨2019, 4, 1⟩)
        (fun _ => Except.ok [⟨"000001.SZ", "2019-01-15 09:31:00", 1⟩]) = [] :=
  (c3_minute_listing_clamp "20190101" "20190301" ⟨2019, 1, 1⟩ ⟨2019, 3, 1⟩ ⟨2019, 4, 1⟩
    (fun _ => Except.ok [⟨"000001.SZ", "2019-01-15 09:31:00", 1⟩])
    (by decide) (by decide) (by decide) (by decide)).2 (by decide) |>.2

/-- C5: merging newly fetched rows into an existing stored dataset
deduplicates on the (ts_code, trade_date) pair keeping the
later-positioned newly fetched row on every key collision: merging
existing {(c,t1,1),(c,t2,2)} with new batch {(c,t2,3)} persists exactly
{(c,t1,1),(c,t2,3)} (here in the sorted on-disk order), and merging a
100-row existing dataset with a 10-row new batch having 3 colliding keys
persists exactly 107 rows. -/
theorem c5_merge_dedup_keep_last :
    (save_data_to_file DailyBar.mergeKey [⟨"c", "20240102", 3⟩] "incremental" none true
        (Except.ok [⟨"c", "20240101", 1⟩, ⟨"c", "20240102", 2⟩])
      = some [⟨"c", "20240102", 3⟩, ⟨"c", "20240101", 1⟩])
    ∧ (∀ ex nw : List DailyBar,
        (ex.map DailyBar.mergeKey).Nodup → (nw.map DailyBar.mergeKey).Nodup →
        ex.length = 100 → nw.length = 10 →
        ex.countP (fun r => nw.any (fun x =>
          decide (DailyBar.mergeKey x = DailyBar.mergeKey r))) = 3 →
        (save_data_to_file DailyBar.mergeKey nw "incremental" none true
            (Except.ok ex)).map List.length = some 107) := by
  constructor
  · decide
  · intro ex nw hex hnw hl1 hl2 hc
    have hne : nw.isEmpty = false := by
      cases nw
      · simp at hl2
      · rfl
    unfold save_data_to_file
    rw [hne]
    simp only [Bool.false_eq_true, if_false]
    show (some (sort_values DailyBar.mergeKey
        (dropDuplicatesKeepLast DailyBar.mergeKey (ex ++ nw)))).map List.length = some 107
    have hkey := dropDuplicatesKeepLast_append_length DailyBar.mergeKey nw ex hex
    rw [dropDuplicatesKeepLast_eq_of_nodup DailyBar.mergeKey nw hnw] at hkey
    rw [Option.map_some', sort_values_length, Option.some.injEq]
    rw [hc, hl1, hl2] at hkey
    omega

/-- Witness for C5: the concrete 100-row dataset `c5ex` merged with the
10-row batch `c5nw` (3 colliding keys) persists 107 rows. -/
theorem c5_merge_dedup_keep_last_witness :
    (save_data_to_file DailyBar.mergeKey c5nw "incremental" none true
        (Except.ok c5ex)).map List.length = some 107 :=
  c5_merge_dedup_keep_last.2 c5ex c5nw (by decide) (by decide) (by decide) (by decide)
    (by decide)

/-- C7: running an incremental synchronization again from a caught-up
state is a no-op.  Hypotheses: the watermark table holds `w` for the
code; advancing a date string by one day strictly increases it; the
provider returns only rows already stored and only rows at or after the
requested start (no rows beyond those already stored); and every stored
row is dated at most `w` (the state a completed first run leaves, its
watermark being derived from the maximum fetched date).  Then the second
run performs no write — the stored dataset is untouched, hence trivially
row-set-equivalent — and leaves the watermark table unchanged. -/
theorem c7_second_sync_idempotent :
    ∀ (ts_code default_start_date default_end_date today lookback_start : String)
      (next_day : String → String)
      (fetch_daily : String → String → String → Except String (List DailyBar))
      (fetch_adj : String → String → String → Except String Unit)
      (file_exists : Bool) (stored : List DailyBar) (sync_info : List SyncRecord) (w : String),
      lastSyncFor sync_info ts_code = some w →
      strLtb w (next_day w) = true →
      (∀ s e : String, ∀ row ∈ download_stock_daily ts_code s e fetch_daily fetch_adj,
        row ∈ stored ∧ strLeb s row.trade_date = true) →
      (∀ row ∈ stored, strLeb row.trade_date w = true) →
      (synchronize_incremental_daily ts_code default_start_date default_end_date today
          lookback_start next_day fetch_daily fetch_adj file_exists (Except.ok stored)
          sync_info).written = none
      ∧ (synchronize_incremental_daily ts_code default_start_date default_end_date today
          lookback_start next_day fetch_daily fetch_adj file_exists (Except.ok stored)
          sync_info).sync_info = sync_info := by
  intro ts_code default_start_date default_end_date today lookback_start next_day
    fetch_daily fetch_adj file_exists stored sync_info w hw hnd hfetch hstored
  unfold synchronize_incremental_daily calculate_download_range_incremental
  rw [hw]
  simp only
  have hdataempty : ∀ e : String,
      download_stock_daily ts_code (next_day w) e fetch_daily fetch_adj = [] := by
    intro e
    rcases hemp : download_stock_daily ts_code (next_day w) e fetch_daily fetch_adj
      with _ | ⟨row, rest⟩
    · rfl
    · exfalso
      have hm : row ∈ download_stock_daily ts_code (next_day w) e fetch_daily fetch_adj := by
        rw [hemp]
        exact List.mem_cons_self _ _
      rcases hfetch (next_day w) e row hm with ⟨hrs, hge⟩
      have hle := hstored row hrs
      unfold strLeb at hge hle
      rw [Bool.not_eq_true'] at hge hle
      have hws : strLtb w (next_day w) = false :=
        strLtb_false_trans (next_day w) row.trade_date w hge hle
      rw [hws] at hnd
      cases hnd
  unfold download_single_step_daily
  cases hge2 : strGeb (next_day w) (if default_end_date == "auto" then today
      else default_end_date)
  · simp only [Bool.false_eq_true, if_false]
    rw [hdataempty]
    simp
  · simp

/-- Witness for C7: a caught-up state (watermark 20240601, stored rows
up to 20240601, provider returning nothing) is left exactly as it is by
a second incremental run. -/
theorem c7_second_sync_idempotent_witness :
    (synchronize_incremental_daily "000001.SZ" "20100101" "auto" "20240701" "20190101"
        (fun _ => "20240602") (fun _ _ _ => Except.ok []) (fun _ _ _ => Except.ok ())
        true (Except.ok [⟨"000001.SZ", "20240601", 1⟩])
        [⟨"000001.SZ", "20240601"⟩]).written = none
    ∧ (synchronize_incremental_daily "000001.SZ" "20100101" "auto" "20240701" "20190101"
        (fun _ => "20240602") (fun _ _ _ => Except.ok []) (fun _ _ _ => Except.ok ())
        true (Except.ok [⟨"000001.SZ", "20240601", 1⟩])
        [⟨"000001.SZ", "20240601"⟩]).sync_info = [⟨"000001.SZ", "20240601"⟩] :=
  c7_second_sync_idempotent "000001.SZ" "20100101" "auto" "20240701" "20190101"
    (fun _ => "20240602") (fun _ _ _ => Except.ok []) (fun _ _ _ => Except.ok ())
    true [⟨"000001.SZ", "20240601", 1⟩] [⟨"000001.SZ", "20240601"⟩] "20240601"
    (by decide) (by decide)
    (by
      intro s e row hrow
      simp [download_stock_daily] at hrow)
    (by
      intro row hrow
      rcases List.mem_singleton.mp hrow with h
      rw [h]
      decide)

/-- C9: `download_minutes_batch` is total over its embedded inputs and
never propagates a fetch failure: an inverted date range returns an
empty frame, an unparsable date argument (the raised exception, caught
by the enclosing handler) returns an empty frame, and when some
sub-ranges fail the rows of every successfully fetched sub-range are
still represented in the returned frame (up to key dedup). -/
theorem c9_minutes_batch_totality :
    (∀ (start_date end_date : String) (list_date : Option Date)
       (fetch : Batch → Except String (List MinuteBar)) (start_dt end_dt : Date),
       parseDate start_date = some start_dt → parseDate end_date = some end_dt →
       end_dt.key < start_dt.key →
       download_minutes_batch start_date end_date list_date fetch = [])
    ∧ (∀ (start_date end_date : String) (list_date : Option Date)
        (fetch : Batch → Except String (List MinuteBar)),
        parseDate start_date = none ∨ parseDate end_date = none →
        download_minutes_batch start_date end_date list_date fetch = [])
    ∧ (∀ (start_date end_date : String) (list_date : Option Date)
        (fetch : Batch → Except String (List MinuteBar)) (start_dt end_dt : Date)
        (b : Batch) (rows : List MinuteBar) (r : MinuteBar),
        parseDate start_date = some start_dt → parseDate end_date = some end_dt →
        b ∈ minuteBatchPlan start_dt end_dt list_date →
        fetch b = Except.ok rows → r ∈ rows →
        ∃ r2 ∈ download_minutes_batch start_date end_date list_date fetch,
          MinuteBar.mergeKey r2 = MinuteBar.mergeKey r) := by
  refine ⟨?_, ?_, ?_⟩
  · intro start_date end_date list_date fetch start_dt end_dt hps hpe hlt
    unfold download_minutes_batch
    rw [hps, hpe]
    have hpl : minuteBatchPlan start_dt end_dt list_date = [] := by
      unfold minuteBatchPlan
      rw [if_pos hlt]
    simp only [hpl, List.foldl_nil, List.isEmpty_nil, if_true]
  · intro start_date end_date list_date fetch h
    unfold download_minutes_batch
    rcases h with h | h
    · rw [h]
    · rw [h]
      cases parseDate start_date <;> rfl
  · intro start_date end_date list_date fetch start_dt end_dt b rows r hps hpe hb hrows hr
    unfold download_minutes_batch
    rw [hps, hpe]
    simp only
    have hrall : r ∈ (minuteBatchPlan start_dt end_dt list_date).foldl
        (fun acc2 b2 =>
          match fetch b2 with
          | Except.ok batch_data => acc2 ++ batch_data
          | Except.error _ => acc2) [] :=
      mem_foldl_collect fetch _ [] r (Or.inr ⟨b, hb, rows, hrows, hr⟩)
    have hne : ((minuteBatchPlan start_dt end_dt list_date).foldl
        (fun acc2 b2 =>
          match fetch b2 with
          | Except.ok batch_data => acc2 ++ batch_data
          | Except.error _ => acc2) []).isEmpty = false := by
      rcases hall : (minuteBatchPlan start_dt end_dt list_date).foldl
          (fun acc2 b2 =>
            match fetch b2 with
            | Except.ok batch_data => acc2 ++ batch_data
            | Except.error _ => acc2) [] with _ | ⟨x, xs⟩
      · rw [hall] at hrall
        cases hrall
      · rw [hall]
        rfl
    rw [hne]
    simp only [Bool.false_eq_true, if_false]
    rcases dropDuplicatesKeepLast_key_surj MinuteBar.mergeKey _ r hrall with ⟨r2, hr2, hk2⟩
    exact ⟨r2, (sort_values_perm MinuteBar.mergeKey _).mem_iff.mpr hr2, hk2⟩

/-- Witness for C9: an inverted range (start 20190301 past end 20190101)
yields an empty frame even though the bound fetch would return rows. -/
theorem c9_minutes_batch_totality_witness :
    download_minutes_batch "20190301" "20190101" none
        (fun _ => Except.ok [⟨"000001.SZ", "2019-01-15 09:31:00", 1⟩]) = [] :=
  c9_minutes_batch_totality.1 "20190301" "20190101" none
    (fun _ => Except.ok [⟨"000001.SZ", "2019-01-15 09:31:00", 1⟩])
    ⟨2019, 3, 1⟩ ⟨2019, 1, 1⟩ (by decide) (by decide) (by decide)

end TushareData
